import Mathlib

/-!
Verification of the care-emr repository's core services
(`residentService` / `medicalRecordService` in the Firestore service module)
against its natural-language specification.

The embedding models:
* the script normalizer `convertHiraganaToKatakana` / `convertKatakanaToHiragana`
  (per-character regex replacement with a fixed 0x60 code-point offset);
* the resident repository (`getAll`, `getByCareLevel`, `getByMedication`,
  `searchByName`, `create`, `update`) over a list-of-documents store, with
  Firestore's `orderBy('name')` modelled as sorting by code-point order and a
  `localeCompare`-style comparator passed in as a parameter (its behaviour is
  host-locale dependent, so it is an input of the model);
* the medical-record repository (`getByResidentId`, `checkExistingRecord`,
  `create`, `update`), with timestamps as natural-number milliseconds and
  `dayjs(t).format('YYYY-MM-DD')` modelled as the epoch-day projection, and
  with each storage read taking a fault flag so that the try/catch error
  swallowing of the source is observable.
-/

namespace CareEmr

/-! ## Script normalizer -/

/-- One step of `str.replace(/[ぁ-ゖ]/g, m => fromCharCode(m.charCodeAt(0) + 0x60))`:
the action of the hiragana-to-katakana regex replacement on a single character. -/
def hiraToKataChar (c : Char) : Char :=
  if 0x3041 ≤ c.toNat ∧ c.toNat ≤ 0x3096 then Char.ofNat (c.toNat + 0x60) else c

/-- One step of `str.replace(/[ァ-ヶ]/g, m => fromCharCode(m.charCodeAt(0) - 0x60))`. -/
def kataToHiraChar (c : Char) : Char :=
  if 0x30A1 ≤ c.toNat ∧ c.toNat ≤ 0x30F6 then Char.ofNat (c.toNat - 0x60) else c

/-- `residentService.convertHiraganaToKatakana`: the global regex replacement
acts independently on every character of the string. -/
def convertHiraganaToKatakana (s : String) : String :=
  ⟨s.data.map hiraToKataChar⟩

/-- `residentService.convertKatakanaToHiragana`. -/
def convertKatakanaToHiragana (s : String) : String :=
  ⟨s.data.map kataToHiraChar⟩

/-- Membership in the Unicode hiragana block U+3040 to U+309F. -/
def inHiraganaBlock (c : Char) : Prop :=
  0x3040 ≤ c.toNat ∧ c.toNat ≤ 0x309F

/-- Membership in the Unicode katakana block U+30A0 to U+30FF. -/
def inKatakanaBlock (c : Char) : Prop :=
  0x30A0 ≤ c.toNat ∧ c.toNat ≤ 0x30FF

instance (c : Char) : Decidable (inHiraganaBlock c) := by
  unfold inHiraganaBlock; infer_instance

instance (c : Char) : Decidable (inKatakanaBlock c) := by
  unfold inKatakanaBlock; infer_instance

/-! ## JavaScript string primitives used by the services -/

/-- The character class stripped by `String.prototype.trim` (ECMA-262
WhiteSpace plus LineTerminator). -/
def jsWhitespace (c : Char) : Bool :=
  c.toNat == 0x9 || c.toNat == 0xA || c.toNat == 0xB || c.toNat == 0xC ||
  c.toNat == 0xD || c.toNat == 0x20 || c.toNat == 0xA0 || c.toNat == 0x1680 ||
  (decide (0x2000 ≤ c.toNat) && decide (c.toNat ≤ 0x200A)) ||
  c.toNat == 0x2028 || c.toNat == 0x2029 || c.toNat == 0x202F ||
  c.toNat == 0x205F || c.toNat == 0x3000 || c.toNat == 0xFEFF

/-- `String.prototype.trim`. -/
def jsTrim (s : String) : String :=
  ⟨((s.data.dropWhile jsWhitespace).reverse.dropWhile jsWhitespace).reverse⟩

/-- `str.split(' ')` on the character list: the segments between single-space
characters (an empty string yields one empty segment, like JavaScript). -/
def splitOnSpace : List Char → List (List Char)
  | [] => [[]]
  | c :: cs =>
    if c = ' ' then [] :: splitOnSpace cs
    else
      match splitOnSpace cs with
      | [] => [[c]]
      | seg :: rest => (c :: seg) :: rest

/-- `str.split(' ')[0] || ''`. -/
def strPart0 (s : String) : String :=
  ⟨(splitOnSpace s.data).getD 0 []⟩

/-- `str.split(' ')[1] || ''`. -/
def strPart1 (s : String) : String :=
  ⟨(splitOnSpace s.data).getD 1 []⟩

/-- Code-point lexicographic "strictly less" on character lists: the string
order used by Firestore's range comparisons (UTF-8 byte order coincides with
code-point order). -/
def listLtb : List Char → List Char → Bool
  | [], [] => false
  | [], _ :: _ => true
  | _ :: _, [] => false
  | a :: as, b :: bs =>
    if a.toNat < b.toNat then true
    else if a.toNat == b.toNat then listLtb as bs
    else false

/-- Strict code-point order on strings. -/
def strLtb (a b : String) : Bool := listLtb a.data b.data

/-- Non-strict code-point order on strings (the order of `>=` / `<=` range
conditions on string fields). -/
def strLeb (a b : String) : Bool := strLtb a b || a == b

/-- Modelled from the spec ("splits the full name and full phonetic reading on
the first whitespace run into last/first components"): everything before the
first maximal whitespace run, and everything after it. Written from the spec's
words to be compared against the code's single-space split. -/
def specSplitOnFirstWhitespaceRun (s : String) : String × String :=
  (⟨s.data.takeWhile fun c => !jsWhitespace c⟩,
   ⟨(s.data.dropWhile fun c => !jsWhitespace c).dropWhile jsWhitespace⟩)

/-! ## Resident repository -/

/-- A stored document of the `residents` collection (the attribute set of the
`Resident` interface; dates are millisecond timestamps, `dischargeDate` is the
nullable one). -/
structure ResDoc where
  id : String
  name : String
  furigana : String
  lastName : String
  firstName : String
  lastNameKana : String
  firstNameKana : String
  gender : String
  birthDate : Nat
  roomNumber : String
  admissionDate : Nat
  dischargeDate : Option Nat
  medicalHistory : String
  medications : List String
  careLevel : Nat
  createdAt : Nat
  updatedAt : Nat
deriving DecidableEq

abbrev ResStore := List ResDoc

/-- `ResidentFormData`, with date strings already parsed to timestamps. -/
structure ResidentForm where
  name : String
  furigana : String
  gender : String
  birthDate : Nat
  roomNumber : String
  admissionDate : Nat
  dischargeDate : Option Nat
  medicalHistory : String
  medications : List String
  careLevel : Nat

/-- `Partial<ResidentFormData>`: the fields an update may carry. A present
`dischargeDate` is itself nullable (an empty form value is stored as null). -/
structure ResidentUpdate where
  name : Option String := none
  furigana : Option String := none
  gender : Option String := none
  birthDate : Option Nat := none
  roomNumber : Option String := none
  admissionDate : Option Nat := none
  dischargeDate : Option (Option Nat) := none
  medicalHistory : Option String := none
  medications : Option (List String) := none
  careLevel : Option Nat := none

/-- Code-point comparison of residents by full name: the order produced by
Firestore's `orderBy('name')` (UTF-8 byte order, which on strings coincides
with code-point lexicographic order). -/
def byName (a b : ResDoc) : Prop := strLeb a.name b.name = true

instance : DecidableRel byName := fun a b =>
  inferInstanceAs (Decidable (strLeb a.name b.name = true))

/-- `residentService.getAll`: `getDocs(query(residents, orderBy('name')))`. -/
def getAll (s : ResStore) : List ResDoc :=
  s.insertionSort byName

/-- `residentService.getByCareLevel`: equality filter plus `orderBy('name')`. -/
def getByCareLevel (s : ResStore) (careLevel : Nat) : List ResDoc :=
  (s.filter fun d => d.careLevel == careLevel).insertionSort byName

/-- `residentService.getByMedication`: blank short-circuit, then an
`array-contains` filter plus `orderBy('name')`; storage errors propagate. -/
def getByMedication (s : ResStore) (fault : Bool) (medication : String) :
    Except Unit (List ResDoc) :=
  let searchTerm := jsTrim medication
  if searchTerm = "" then .ok []
  else if fault then .error ()
  else .ok ((s.filter fun d => d.medications.contains searchTerm).insertionSort byName)

/-- One range sub-query of `searchByName`:
`where(field, '>=', term), where(field, '<=', term + '')`. -/
def matchesRange (field term : String) : Bool :=
  strLeb term field && strLeb field (term ++ "\uf8ff")

/-- Modelled from the spec ("matching records whose field value
lexicographically falls in `[query, query + U+F8FF)`"): the half-open variant
of the range, written from the spec's words for comparison with the code. -/
def matchesRangeHalfOpen (field term : String) : Bool :=
  strLeb term field && strLtb field (term ++ "\uf8ff")

/-- The concatenation of the six sub-query result sets of `searchByName`, in
the order the queries are listed in the source. -/
def subQueryHits (s : ResStore) (searchTerm katakanaSearch : String) : List ResDoc :=
  (s.filter fun d => matchesRange d.name searchTerm) ++
  (s.filter fun d => matchesRange d.lastName searchTerm) ++
  (s.filter fun d => matchesRange d.firstName searchTerm) ++
  (s.filter fun d => matchesRange d.furigana katakanaSearch) ++
  (s.filter fun d => matchesRange d.lastNameKana katakanaSearch) ++
  (s.filter fun d => matchesRange d.firstNameKana katakanaSearch)

/-- The `Map<string, Resident>` union keyed by document id, with the set of
already-inserted keys made explicit: a document whose id was already inserted
is dropped (its position and data stay those of the first insertion, the
re-inserted data being identical since ids are unique in a collection). -/
def dedupByIdAux (seen : List String) : List ResDoc → List ResDoc
  | [] => []
  | d :: ds =>
    if seen.contains d.id then dedupByIdAux seen ds
    else d :: dedupByIdAux (d.id :: seen) ds

/-- The `Map<string, Resident>` union keyed by document id. -/
def dedupById (l : List ResDoc) : List ResDoc := dedupByIdAux [] l

/-- The order used by `.sort((a, b) => a.name.localeCompare(b.name))`, for a
host comparator `lcmp`. -/
def lcLe (lcmp : String → String → Int) (a b : ResDoc) : Prop :=
  lcmp a.name b.name ≤ 0

instance (lcmp : String → String → Int) : DecidableRel (lcLe lcmp) := fun a b =>
  inferInstanceAs (Decidable (lcmp a.name b.name ≤ 0))

/-- `residentService.searchByName`: blank short-circuit; six concurrent range
queries (three with the trimmed query, three with its katakana conversion);
union by id; sort by the host's `localeCompare` comparator. A failing storage
read propagates as an error. -/
def searchByName (s : ResStore) (lcmp : String → String → Int) (fault : Bool)
    (q : String) : Except Unit (List ResDoc) :=
  let searchTerm := jsTrim q
  if searchTerm = "" then .ok []
  else if fault then .error ()
  else
    let katakanaSearch := convertHiraganaToKatakana searchTerm
    .ok ((dedupById (subQueryHits s searchTerm katakanaSearch)).insertionSort (lcLe lcmp))

/-- The spec's variant of `searchByName` with half-open range sub-queries,
used only to exhibit where it departs from the code. -/
def searchByNameHalfOpen (s : ResStore) (lcmp : String → String → Int)
    (fault : Bool) (q : String) : Except Unit (List ResDoc) :=
  let searchTerm := jsTrim q
  if searchTerm = "" then .ok []
  else if fault then .error ()
  else
    let katakanaSearch := convertHiraganaToKatakana searchTerm
    .ok ((dedupById (
      (s.filter fun d => matchesRangeHalfOpen d.name searchTerm) ++
      (s.filter fun d => matchesRangeHalfOpen d.lastName searchTerm) ++
      (s.filter fun d => matchesRangeHalfOpen d.firstName searchTerm) ++
      (s.filter fun d => matchesRangeHalfOpen d.furigana katakanaSearch) ++
      (s.filter fun d => matchesRangeHalfOpen d.lastNameKana katakanaSearch) ++
      (s.filter fun d => matchesRangeHalfOpen d.firstNameKana katakanaSearch))
      ).insertionSort (lcLe lcmp))

/-- `residentService.create`: splits name and furigana with `split(' ')`,
stores the document with `createdAt = updatedAt = now`, returns the new id. -/
def resCreate (s : ResStore) (form : ResidentForm) (now : Nat) (newId : String) :
    String × ResStore :=
  (newId,
   s ++ [{ id := newId, name := form.name, furigana := form.furigana,
           lastName := strPart0 form.name, firstName := strPart1 form.name,
           lastNameKana := strPart0 form.furigana,
           firstNameKana := strPart1 form.furigana,
           gender := form.gender, birthDate := form.birthDate,
           roomNumber := form.roomNumber, admissionDate := form.admissionDate,
           dischargeDate := form.dischargeDate,
           medicalHistory := form.medicalHistory,
           medications := form.medications, careLevel := form.careLevel,
           createdAt := now, updatedAt := now }])

/-- The field application of `residentService.update`: present fields are
written (re-deriving the split name fields when `name` or `furigana` is
present), absent fields left alone, `updatedAt` always refreshed. -/
def applyResUpdate (d : ResDoc) (u : ResidentUpdate) (now : Nat) : ResDoc :=
  { d with
    updatedAt := now,
    name := u.name.getD d.name,
    lastName := match u.name with
      | some n => strPart0 n
      | none => d.lastName,
    firstName := match u.name with
      | some n => strPart1 n
      | none => d.firstName,
    furigana := u.furigana.getD d.furigana,
    lastNameKana := match u.furigana with
      | some f => strPart0 f
      | none => d.lastNameKana,
    firstNameKana := match u.furigana with
      | some f => strPart1 f
      | none => d.firstNameKana,
    gender := u.gender.getD d.gender,
    birthDate := u.birthDate.getD d.birthDate,
    roomNumber := u.roomNumber.getD d.roomNumber,
    admissionDate := u.admissionDate.getD d.admissionDate,
    dischargeDate := match u.dischargeDate with
      | some v => v
      | none => d.dischargeDate,
    medicalHistory := u.medicalHistory.getD d.medicalHistory,
    medications := u.medications.getD d.medications,
    careLevel := u.careLevel.getD d.careLevel }

/-- `residentService.update`: `updateDoc` on the document with the given id
(failing with not-found when no such document exists). -/
def resUpdate (s : ResStore) (id : String) (u : ResidentUpdate) (now : Nat) :
    Option ResStore :=
  if s.any fun d => d.id == id then
    some (s.map fun d => if d.id == id then applyResUpdate d u now else d)
  else none

/-- Plain code-point comparison packaged as a `localeCompare`-shaped
comparator (a possible, but not mandated, host behaviour). -/
def cpCmpInt (a b : String) : Int :=
  if strLtb a b then -1 else if a = b then 0 else 1

/-- Lower-cased view of a string (ASCII case folding). -/
def lowerStr (s : String) : String :=
  ⟨s.data.map Char.toLower⟩

/-- A case-insensitive-first comparator of the kind ICU-backed `localeCompare`
implementations exhibit (in the root locale, "a" sorts before "B"): a concrete
instance of the host comparator parameter. -/
def icuLikeCmp (a b : String) : Int :=
  if lowerStr a = lowerStr b then cpCmpInt a b
  else cpCmpInt (lowerStr a) (lowerStr b)

/-! ## Medical record repository

Timestamps are natural-number milliseconds since the epoch; the calendar-day
comparison `dayjs(t).format('YYYY-MM-DD')` is modelled as the epoch-day
projection `dayOf` (an injective encoding of the formatted calendar date).
Each Firestore read takes a `fault` flag: `true` models the `getDocs` call
throwing (network or store failure), which the source wraps in try/catch. -/

/-- A stored document of the `medicalRecords` collection. -/
structure MedDoc where
  id : String
  residentId : String
  date : Nat
  record : String
  createdAt : Nat
  updatedAt : Nat
deriving DecidableEq

abbrev MedStore := List MedDoc

/-- `MedicalRecordFormData`, with the `date` string already parsed to its
millisecond timestamp. -/
structure MedForm where
  date : Nat
  record : String

/-- Fields a partial `update` may carry (`Partial<MedicalRecordFormData>`). -/
structure MedUpdate where
  date : Option Nat := none
  record : Option String := none

/-- Calendar day of a timestamp: the model of `dayjs(t).format('YYYY-MM-DD')`. -/
def dayOf (t : Nat) : Nat := t / 86400000

/-- The `getDocs(query(..., where('residentId', '==', residentId)))` call:
either the matching documents, or a thrown error when the store faults. -/
def queryByResident (s : MedStore) (fault : Bool) (rid : String) :
    Except Unit (List MedDoc) :=
  if fault then .error () else .ok (s.filter fun d => d.residentId == rid)

/-- `medicalRecordService.getByResidentId`: fetch the resident's records,
sort by date descending; the catch-all returns `[]` on storage failure. -/
def getByResidentId (s : MedStore) (fault : Bool) (rid : String) : List MedDoc :=
  match queryByResident s fault rid with
  | .error _ => []
  | .ok docs => docs.insertionSort fun a b => b.date ≤ a.date

/-- `medicalRecordService.checkExistingRecord`: linear scan of the resident's
records for the first one on the same calendar day; the catch-all returns
`null` on storage failure. -/
def checkExistingRecord (s : MedStore) (fault : Bool) (rid : String) (date : Nat) :
    Option MedDoc :=
  match queryByResident s fault rid with
  | .error _ => none
  | .ok docs => docs.find? fun d => dayOf d.date == dayOf date

/-- The user-facing conflict message built from
`dayjs(data.date).format('YYYY年MM月DD日')`; the formatted date is modelled by
its injective day encoding. -/
def conflictMessage (t : Nat) : String :=
  toString (dayOf t) ++ "の診療録は既に存在します。既存の記録を編集してください。"

/-- `medicalRecordService.create`: first checks for an existing same-day record
and throws the conflict message if one exists (leaving the store unchanged);
otherwise inserts a document with `createdAt = updatedAt = now` and returns the
id assigned by the store. -/
def medCreate (s : MedStore) (checkFault : Bool) (rid : String) (form : MedForm)
    (now : Nat) (newId : String) : Except String String × MedStore :=
  match checkExistingRecord s checkFault rid form.date with
  | some _ => (.error (conflictMessage form.date), s)
  | none =>
      (.ok newId,
       s ++ [{ id := newId, residentId := rid, date := form.date,
               record := form.record, createdAt := now, updatedAt := now }])

/-- The field application of `medicalRecordService.update`: present fields are
written, absent fields left alone, `updatedAt` always refreshed. -/
def applyMedUpdate (d : MedDoc) (u : MedUpdate) (now : Nat) : MedDoc :=
  { d with
    date := u.date.getD d.date,
    record := u.record.getD d.record,
    updatedAt := now }

/-- `medicalRecordService.update`: `updateDoc` on the document with the given
id (failing if no such document exists); no date-uniqueness check is run. -/
def medUpdate (s : MedStore) (id : String) (u : MedUpdate) (now : Nat) :
    Option MedStore :=
  if s.any fun d => d.id == id then
    some (s.map fun d => if d.id == id then applyMedUpdate d u now else d)
  else none

/-! ## Helper lemmas: characters and conversion -/

theorem toNat_ofNat_of_lt {n : Nat} (h : n < 0xd800) : (Char.ofNat n).toNat = n := by
  have hv : n.isValidChar := Or.inl h
  rw [Char.ofNat, dif_pos hv]
  rfl

theorem kataToHira_hiraToKata_char {c : Char} (h : inHiraganaBlock c) :
    kataToHiraChar (hiraToKataChar c) = c := by
  obtain ⟨h1, h2⟩ := h
  unfold hiraToKataChar kataToHiraChar
  by_cases hc : 0x3041 ≤ c.toNat ∧ c.toNat ≤ 0x3096
  · rw [if_pos hc]
    have ht : (Char.ofNat (c.toNat + 0x60)).toNat = c.toNat + 0x60 :=
      toNat_ofNat_of_lt (by omega)
    rw [if_pos (by rw [ht]; omega), ht]
    have he : c.toNat + 0x60 - 0x60 = c.toNat := by omega
    rw [he, Char.ofNat_toNat]
  · rw [if_neg hc, if_neg (by omega)]

theorem hiraToKata_kataToHira_char {c : Char} (h : inKatakanaBlock c) :
    hiraToKataChar (kataToHiraChar c) = c := by
  obtain ⟨h1, h2⟩ := h
  unfold hiraToKataChar kataToHiraChar
  by_cases hc : 0x30A1 ≤ c.toNat ∧ c.toNat ≤ 0x30F6
  · rw [if_pos hc]
    have ht : (Char.ofNat (c.toNat - 0x60)).toNat = c.toNat - 0x60 :=
      toNat_ofNat_of_lt (by omega)
    rw [if_pos (by rw [ht]; omega), ht]
    have he : c.toNat - 0x60 + 0x60 = c.toNat := by omega
    rw [he, Char.ofNat_toNat]
  · rw [if_neg hc, if_neg (by omega)]

theorem hiraToKataChar_eq_of_not_range {c : Char}
    (h : ¬ (0x3041 ≤ c.toNat ∧ c.toNat ≤ 0x3096)) : hiraToKataChar c = c := by
  unfold hiraToKataChar
  rw [if_neg h]

theorem kataToHiraChar_eq_of_not_range {c : Char}
    (h : ¬ (0x30A1 ≤ c.toNat ∧ c.toNat ≤ 0x30F6)) : kataToHiraChar c = c := by
  unfold kataToHiraChar
  rw [if_neg h]

theorem hiraToKataChar_eq_of_outside {c : Char}
    (h : ¬ inHiraganaBlock c) : hiraToKataChar c = c := by
  unfold inHiraganaBlock at h
  exact hiraToKataChar_eq_of_not_range (by omega)

theorem kataToHiraChar_eq_of_outside {c : Char}
    (h : ¬ inKatakanaBlock c) : kataToHiraChar c = c := by
  unfold inKatakanaBlock at h
  exact kataToHiraChar_eq_of_not_range (by omega)

theorem hiraToKataChar_not_source (c : Char) :
    ¬ (0x3041 ≤ (hiraToKataChar c).toNat ∧ (hiraToKataChar c).toNat ≤ 0x3096) := by
  unfold hiraToKataChar
  by_cases hc : 0x3041 ≤ c.toNat ∧ c.toNat ≤ 0x3096
  · rw [if_pos hc]
    have ht : (Char.ofNat (c.toNat + 0x60)).toNat = c.toNat + 0x60 :=
      toNat_ofNat_of_lt (by omega)
    rw [ht]; omega
  · rw [if_neg hc]; omega

theorem kataToHiraChar_not_source (c : Char) :
    ¬ (0x30A1 ≤ (kataToHiraChar c).toNat ∧ (kataToHiraChar c).toNat ≤ 0x30F6) := by
  unfold kataToHiraChar
  by_cases hc : 0x30A1 ≤ c.toNat ∧ c.toNat ≤ 0x30F6
  · rw [if_pos hc]
    have ht : (Char.ofNat (c.toNat - 0x60)).toNat = c.toNat - 0x60 :=
      toNat_ofNat_of_lt (by omega)
    rw [ht]; omega
  · rw [if_neg hc]; omega

theorem hiraToKataChar_idem (c : Char) :
    hiraToKataChar (hiraToKataChar c) = hiraToKataChar c :=
  hiraToKataChar_eq_of_not_range (hiraToKataChar_not_source c)

theorem kataToHiraChar_idem (c : Char) :
    kataToHiraChar (kataToHiraChar c) = kataToHiraChar c :=
  kataToHiraChar_eq_of_not_range (kataToHiraChar_not_source c)

theorem map_map_eq_of_roundtrip {f g : Char → Char} :
    ∀ (l : List Char), (∀ c ∈ l, g (f c) = c) → (l.map f).map g = l
  | [], _ => rfl
  | c :: cs, h => by
    simp only [List.map_cons, List.cons.injEq]
    exact ⟨h c (List.mem_cons_self c cs),
           map_map_eq_of_roundtrip cs fun x hx => h x (List.mem_cons_of_mem c hx)⟩

theorem map_eq_self_of_fix {f : Char → Char} :
    ∀ (l : List Char), (∀ c ∈ l, f c = c) → l.map f = l
  | [], _ => rfl
  | c :: cs, h => by
    simp only [List.map_cons, List.cons.injEq]
    exact ⟨h c (List.mem_cons_self c cs),
           map_eq_self_of_fix cs fun x hx => h x (List.mem_cons_of_mem c hx)⟩

/-! ## Helper lemmas: JS string primitives, dedup, comparators -/

theorem jsTrim_eq_empty {q : String} (h : ∀ c ∈ q.data, jsWhitespace c = true) :
    jsTrim q = "" := by
  unfold jsTrim
  have h1 : q.data.dropWhile jsWhitespace = [] := by
    rw [List.dropWhile_eq_nil_iff]
    exact h
  rw [h1]
  rfl

theorem splitOnSpace_ne_nil : ∀ (l : List Char), splitOnSpace l ≠ []
  | [] => by simp [splitOnSpace]
  | c :: cs => by
    unfold splitOnSpace
    by_cases hc : c = ' '
    · simp [hc]
    · rw [if_neg hc]
      match splitOnSpace cs with
      | [] => simp
      | seg :: rest => simp

theorem splitOnSpace_no_space : ∀ {l : List Char}, ' ' ∉ l → splitOnSpace l = [l]
  | [], _ => rfl
  | c :: cs, h => by
    have hc : ¬ c = ' ' := fun he => h (he ▸ List.mem_cons_self c cs)
    have hcs : ' ' ∉ cs := fun hm => h (List.mem_cons_of_mem c hm)
    unfold splitOnSpace
    rw [if_neg hc, splitOnSpace_no_space hcs]

theorem splitOnSpace_append {a : List Char} (b : List Char) (ha : ' ' ∉ a) :
    splitOnSpace (a ++ ' ' :: b) = a :: splitOnSpace b := by
  induction a with
  | nil => simp [splitOnSpace]
  | cons c cs ih =>
    have hc : ¬ c = ' ' := fun he => ha (he ▸ List.mem_cons_self c cs)
    have hcs : ' ' ∉ cs := fun hm => ha (List.mem_cons_of_mem c hm)
    show splitOnSpace (c :: (cs ++ ' ' :: b)) = (c :: cs) :: splitOnSpace b
    rw [splitOnSpace, if_neg hc, ih hcs]

theorem strPart0_of_split {a b : String} (ha : ' ' ∉ a.data) :
    strPart0 (a ++ " " ++ b) = a := by
  unfold strPart0
  have hd : (a ++ " " ++ b).data = a.data ++ ' ' :: b.data := by
    simp [String.data_append]
  rw [hd, splitOnSpace_append b.data ha]
  cases a
  rfl

theorem strPart1_of_split {a b : String} (ha : ' ' ∉ a.data) (hb : ' ' ∉ b.data) :
    strPart1 (a ++ " " ++ b) = b := by
  unfold strPart1
  have hd : (a ++ " " ++ b).data = a.data ++ ' ' :: b.data := by
    simp [String.data_append]
  rw [hd, splitOnSpace_append b.data ha, splitOnSpace_no_space hb]
  cases b
  rfl

theorem strPart0_no_space {a : String} (ha : ' ' ∉ a.data) : strPart0 a = a := by
  unfold strPart0
  rw [splitOnSpace_no_space ha]
  cases a
  rfl

theorem strPart1_no_space {a : String} (ha : ' ' ∉ a.data) : strPart1 a = "" := by
  unfold strPart1
  rw [splitOnSpace_no_space ha]
  rfl

theorem dedupByIdAux_sub :
    ∀ (l : List ResDoc) (seen : List String) (d : ResDoc),
      d ∈ dedupByIdAux seen l → d ∈ l
  | [], _, d, h => by simp [dedupByIdAux] at h
  | e :: es, seen, d, h => by
    rw [dedupByIdAux] at h
    by_cases hc : seen.contains e.id
    · rw [if_pos hc] at h
      exact List.mem_cons_of_mem _ (dedupByIdAux_sub es seen d h)
    · rw [if_neg hc] at h
      rcases List.mem_cons.1 h with rfl | h2
      · exact List.mem_cons_self _ _
      · exact List.mem_cons_of_mem _ (dedupByIdAux_sub es _ d h2)

theorem dedupByIdAux_mem :
    ∀ (l : List ResDoc) (seen : List String),
      (∀ d1 ∈ l, ∀ d2 ∈ l, d1.id = d2.id → d1 = d2) →
      ∀ d ∈ l, d.id ∉ seen → d ∈ dedupByIdAux seen l
  | [], _, _, d, hd, _ => absurd hd (List.not_mem_nil d)
  | e :: es, seen, hinj, d, hd, hs => by
    rw [dedupByIdAux]
    have hinj2 : ∀ d1 ∈ es, ∀ d2 ∈ es, d1.id = d2.id → d1 = d2 :=
      fun d1 h1 d2 h2 => hinj d1 (List.mem_cons_of_mem _ h1)
        d2 (List.mem_cons_of_mem _ h2)
    by_cases hc : seen.contains e.id
    · rw [if_pos hc]
      rcases List.mem_cons.1 hd with rfl | hmem
      · exact absurd (List.elem_iff.1 hc) hs
      · exact dedupByIdAux_mem es seen hinj2 d hmem hs
    · rw [if_neg hc]
      rcases List.mem_cons.1 hd with rfl | hmem
      · exact List.mem_cons_self _ _
      · by_cases hid : d.id = e.id
        · have : d = e := hinj d hd e (List.mem_cons_self e es) hid
          rw [this]
          exact List.mem_cons_self _ _
        · refine List.mem_cons_of_mem _ (dedupByIdAux_mem es _ hinj2 d hmem ?_)
          intro hmem2
          rcases List.mem_cons.1 hmem2 with h | h
          · exact hid h
          · exact hs h

theorem dedupByIdAux_nodup :
    ∀ (l : List ResDoc) (seen : List String),
      ((dedupByIdAux seen l).map fun d => d.id).Nodup ∧
      ∀ d ∈ dedupByIdAux seen l, d.id ∉ seen
  | [], _ => by simp [dedupByIdAux]
  | e :: es, seen => by
    rw [dedupByIdAux]
    by_cases hc : seen.contains e.id
    · rw [if_pos hc]
      exact dedupByIdAux_nodup es seen
    · rw [if_neg hc]
      obtain ⟨ih1, ih2⟩ := dedupByIdAux_nodup es (e.id :: seen)
      refine ⟨?_, ?_⟩
      · simp only [List.map_cons, List.nodup_cons]
        refine ⟨fun hmem => ?_, ih1⟩
        obtain ⟨d, hd, hid⟩ := List.mem_map.1 hmem
        exact ih2 d hd (hid ▸ List.mem_cons_self _ _)
      · intro d hd
        rcases List.mem_cons.1 hd with rfl | h2
        · exact fun hm => hc (List.elem_iff.2 hm)
        · exact fun hm => ih2 d h2 (List.mem_cons_of_mem _ hm)

theorem dedupById_sub {l : List ResDoc} {d : ResDoc} (h : d ∈ dedupById l) :
    d ∈ l :=
  dedupByIdAux_sub l [] d h

theorem dedupById_mem {l : List ResDoc}
    (hinj : ∀ d1 ∈ l, ∀ d2 ∈ l, d1.id = d2.id → d1 = d2)
    {d : ResDoc} (hd : d ∈ l) : d ∈ dedupById l :=
  dedupByIdAux_mem l [] hinj d hd (List.not_mem_nil _)

theorem dedupById_nodup (l : List ResDoc) :
    ((dedupById l).map fun d => d.id).Nodup :=
  (dedupByIdAux_nodup l []).1

theorem charToNat_inj {a b : Char} (h : a.toNat = b.toNat) : a = b :=
  Char.ext (UInt32.toNat.inj h)

theorem stringDataEq : ∀ {a b : String}, a.data = b.data → a = b
  | ⟨_⟩, ⟨_⟩, rfl => rfl

theorem listLtb_trans : ∀ (a b c : List Char),
    listLtb a b = true → listLtb b c = true → listLtb a c = true
  | [], [], _, hab, _ => by simp [listLtb] at hab
  | [], _ :: _, [], _, hbc => by simp [listLtb] at hbc
  | [], _ :: _, _ :: _, _, _ => by simp [listLtb]
  | _ :: _, [], _, hab, _ => by simp [listLtb] at hab
  | _ :: _, _ :: _, [], _, hbc => by simp [listLtb] at hbc
  | a :: as, b :: bs, c :: cs, hab, hbc => by
    simp only [listLtb] at hab hbc ⊢
    by_cases h1 : a.toNat < b.toNat
    · by_cases h2 : b.toNat < c.toNat
      · rw [if_pos (Nat.lt_trans h1 h2)]
      · rw [if_neg h2] at hbc
        by_cases h3 : b.toNat == c.toNat
        · have hbc3 : b.toNat = c.toNat := eq_of_beq h3
          rw [if_pos (hbc3 ▸ h1)]
        · rw [if_neg h3] at hbc
          exact absurd hbc (by simp)
    · rw [if_neg h1] at hab
      by_cases h3 : a.toNat == b.toNat
      · have hab3 : a.toNat = b.toNat := eq_of_beq h3
        rw [if_pos h3] at hab
        by_cases h2 : b.toNat < c.toNat
        · rw [if_pos (hab3 ▸ h2)]
        · rw [if_neg h2] at hbc
          by_cases h4 : b.toNat == c.toNat
          · have hbc4 : b.toNat = c.toNat := eq_of_beq h4
            rw [if_pos h4] at hbc
            rw [if_neg (by omega), if_pos (by simp [hab3, hbc4]),
              listLtb_trans as bs cs hab hbc]
          · rw [if_neg h4] at hbc
            exact absurd hbc (by simp)
      · rw [if_neg h3] at hab
        exact absurd hab (by simp)

theorem listLtb_total : ∀ (a b : List Char),
    listLtb a b = true ∨ listLtb b a = true ∨ a = b
  | [], [] => .inr (.inr rfl)
  | [], _ :: _ => .inl (by simp [listLtb])
  | _ :: _, [] => .inr (.inl (by simp [listLtb]))
  | a :: as, b :: bs => by
    rcases Nat.lt_trichotomy a.toNat b.toNat with h | h | h
    · exact .inl (by simp [listLtb, h])
    · have hab : a = b := charToNat_inj h
      subst hab
      rcases listLtb_total as bs with h2 | h2 | h2
      · exact .inl (by simp [listLtb, h2])
      · exact .inr (.inl (by simp [listLtb, h2]))
      · exact .inr (.inr (by rw [h2]))
    · exact .inr (.inl (by simp [listLtb, h]))

theorem strLeb_total (a b : String) : strLeb a b = true ∨ strLeb b a = true := by
  unfold strLeb strLtb
  rcases listLtb_total a.data b.data with h | h | h
  · exact .inl (by simp [h])
  · exact .inr (by simp [h])
  · have : a = b := stringDataEq h
    subst this
    exact .inl (by simp)

theorem strLeb_trans {a b c : String} (h1 : strLeb a b = true)
    (h2 : strLeb b c = true) : strLeb a c = true := by
  unfold strLeb strLtb at h1 h2 ⊢
  rw [Bool.or_eq_true] at h1 h2 ⊢
  rcases h1 with hlt1 | heq1
  · rcases h2 with hlt2 | heq2
    · exact .inl (listLtb_trans _ _ _ hlt1 hlt2)
    · have hbc : b = c := eq_of_beq heq2
      subst hbc
      exact .inl hlt1
  · have hab : a = b := eq_of_beq heq1
    subst hab
    exact h2

theorem cpCmpInt_le_zero {a b : String} : cpCmpInt a b ≤ 0 ↔ strLeb a b = true := by
  unfold cpCmpInt strLeb
  split_ifs with h1 h2
  · simp only [h1, Bool.true_or]
    norm_num
  · subst h2
    simp only [beq_self_eq_true, Bool.or_true]
    norm_num
  · have hne : (a == b) = false := beq_eq_false_iff_ne.2 h2
    have hlt : strLtb a b = false := Bool.eq_false_iff.2 h1
    simp only [hlt, hne, Bool.or_self]
    norm_num

/-! ## C4 and C10: normalizer claims -/

/-- C4: for every string composed solely of hiragana-block characters,
`convertKatakanaToHiragana (convertHiraganaToKatakana s) = s`; symmetrically for
strings composed solely of katakana-block characters; and every character
outside both blocks is left unchanged by both functions (which are pure total
functions over arbitrary strings by construction). -/
theorem script_conversion_roundtrip :
    (∀ s : String, (∀ c ∈ s.data, inHiraganaBlock c) →
       convertKatakanaToHiragana (convertHiraganaToKatakana s) = s) ∧
    (∀ s : String, (∀ c ∈ s.data, inKatakanaBlock c) →
       convertHiraganaToKatakana (convertKatakanaToHiragana s) = s) ∧
    (∀ s : String, (∀ c ∈ s.data, ¬ inHiraganaBlock c ∧ ¬ inKatakanaBlock c) →
       convertHiraganaToKatakana s = s ∧ convertKatakanaToHiragana s = s) := by
  refine ⟨fun s h => ?_, fun s h => ?_, fun s h => ⟨?_, ?_⟩⟩
  · cases s with
    | mk l =>
      unfold convertHiraganaToKatakana convertKatakanaToHiragana
      exact congrArg String.mk
        (map_map_eq_of_roundtrip l fun c hc => kataToHira_hiraToKata_char (h c hc))
  · cases s with
    | mk l =>
      unfold convertHiraganaToKatakana convertKatakanaToHiragana
      exact congrArg String.mk
        (map_map_eq_of_roundtrip l fun c hc => hiraToKata_kataToHira_char (h c hc))
  · cases s with
    | mk l =>
      unfold convertHiraganaToKatakana
      exact congrArg String.mk
        (map_eq_self_of_fix l fun c hc => hiraToKataChar_eq_of_outside (h c hc).1)
  · cases s with
    | mk l =>
      unfold convertKatakanaToHiragana
      exact congrArg String.mk
        (map_eq_self_of_fix l fun c hc => kataToHiraChar_eq_of_outside (h c hc).2)

theorem script_conversion_roundtrip_witness :
    convertKatakanaToHiragana (convertHiraganaToKatakana "たなか") = "たなか" ∧
    convertHiraganaToKatakana (convertKatakanaToHiragana "タナカ") = "タナカ" ∧
    convertHiraganaToKatakana "abc 305" = "abc 305" :=
  ⟨script_conversion_roundtrip.1 "たなか" (by decide),
   script_conversion_roundtrip.2.1 "タナカ" (by decide),
   (script_conversion_roundtrip.2.2 "abc 305" (by decide)).1⟩

/-- C10: both conversion functions are idempotent over every string, because
the output of each contains no character of its own source range
(U+3041 to U+3096 for hiragana-to-katakana, U+30A1 to U+30F6 for the inverse). -/
theorem script_conversion_idempotent :
    (∀ s : String,
       convertHiraganaToKatakana (convertHiraganaToKatakana s) =
         convertHiraganaToKatakana s) ∧
    (∀ s : String,
       convertKatakanaToHiragana (convertKatakanaToHiragana s) =
         convertKatakanaToHiragana s) ∧
    (∀ s : String, ∀ c ∈ (convertHiraganaToKatakana s).data,
       ¬ (0x3041 ≤ c.toNat ∧ c.toNat ≤ 0x3096)) ∧
    (∀ s : String, ∀ c ∈ (convertKatakanaToHiragana s).data,
       ¬ (0x30A1 ≤ c.toNat ∧ c.toNat ≤ 0x30F6)) := by
  refine ⟨fun s => ?_, fun s => ?_, fun s c hc => ?_, fun s c hc => ?_⟩
  · cases s with
    | mk l =>
      unfold convertHiraganaToKatakana
      refine congrArg String.mk (map_eq_self_of_fix _ fun c hc => ?_)
      obtain ⟨a, _, rfl⟩ := List.mem_map.1 hc
      exact hiraToKataChar_idem a
  · cases s with
    | mk l =>
      unfold convertKatakanaToHiragana
      refine congrArg String.mk (map_eq_self_of_fix _ fun c hc => ?_)
      obtain ⟨a, _, rfl⟩ := List.mem_map.1 hc
      exact kataToHiraChar_idem a
  · unfold convertHiraganaToKatakana at hc
    obtain ⟨a, _, rfl⟩ := List.mem_map.1 hc
    exact hiraToKataChar_not_source a
  · unfold convertKatakanaToHiragana at hc
    obtain ⟨a, _, rfl⟩ := List.mem_map.1 hc
    exact kataToHiraChar_not_source a

theorem script_conversion_idempotent_witness :
    convertHiraganaToKatakana (convertHiraganaToKatakana "たなか x") =
      convertHiraganaToKatakana "たなか x" ∧
    convertKatakanaToHiragana (convertKatakanaToHiragana "タナカ x") =
      convertKatakanaToHiragana "タナカ x" ∧
    ¬ (0x3041 ≤ Char.toNat 'タ' ∧ Char.toNat 'タ' ≤ 0x3096) :=
  ⟨script_conversion_idempotent.1 "たなか x",
   script_conversion_idempotent.2.1 "タナカ x",
   script_conversion_idempotent.2.2.1 "た" 'タ' (by decide)⟩

/-! ## C9: blank-query short-circuit -/

/-- C9: for every query that is empty or consists solely of JS whitespace,
`searchByName` and `getByMedication` return `.ok []` for every store, every
comparator and even for a faulting storage layer — the blank check runs before
any storage access, so no storage call is issued. -/
theorem blank_query_short_circuit (s : ResStore) (lcmp : String → String → Int)
    (fault : Bool) (q : String) (h : ∀ c ∈ q.data, jsWhitespace c = true) :
    searchByName s lcmp fault q = .ok [] ∧ getByMedication s fault q = .ok [] := by
  have ht : jsTrim q = "" := jsTrim_eq_empty h
  constructor
  · simp [searchByName, ht]
  · simp [getByMedication, ht]

theorem blank_query_short_circuit_witness :
    (∀ c ∈ ("   " : String).data, jsWhitespace c = true) ∧
    searchByName
        [⟨"s1", "田中 花子", "タナカ ハナコ", "田中", "花子", "タナカ", "ハナコ",
          "女性", 0, "101", 0, none, "", ["アスピリン"], 3, 0, 0⟩]
        cpCmpInt true "   " = .ok [] ∧
    getByMedication
        [⟨"s1", "田中 花子", "タナカ ハナコ", "田中", "花子", "タナカ", "ハナコ",
          "女性", 0, "101", 0, none, "", ["アスピリン"], 3, 0, 0⟩]
        true "" = .ok [] :=
  ⟨by decide,
   (blank_query_short_circuit _ cpCmpInt true "   " (by decide)).1,
   (blank_query_short_circuit _ cpCmpInt true "" (by decide)).2⟩

/-! ## C3: result ordering (corrected) -/

/-- C3 counterexample: with an ICU-style case-insensitive host comparator,
`searchByName` returns a list that is not sorted in code-point order — the
resident named "a" (matched through the full-name query) precedes the resident
named "B" (matched through the first-name query), while code-point order puts
"B" first. The claim that all four result lists are code-point sorted is
therefore false as stated. -/
theorem searchByName_not_codepoint_sorted_cex :
    searchByName
        [⟨"x", "B", "", "", "ab", "", "", "男性", 0, "1", 0, none, "", [], 1, 0, 0⟩,
         ⟨"y", "a", "", "", "", "", "", "男性", 0, "2", 0, none, "", [], 1, 0, 0⟩]
        icuLikeCmp false "a" =
      .ok [⟨"y", "a", "", "", "", "", "", "男性", 0, "2", 0, none, "", [], 1, 0, 0⟩,
           ⟨"x", "B", "", "", "ab", "", "", "男性", 0, "1", 0, none, "", [], 1, 0, 0⟩] ∧
    ¬ List.Sorted byName
        [⟨"y", "a", "", "", "", "", "", "男性", 0, "2", 0, none, "", [], 1, 0, 0⟩,
         ⟨"x", "B", "", "", "ab", "", "", "男性", 0, "1", 0, none, "", [], 1, 0, 0⟩] := by
  constructor
  · rfl
  · intro hs
    have := List.rel_of_sorted_cons hs _ (List.mem_singleton.2 rfl)
    revert this
    decide

/-- C3 (amended): `getAll`, `getByCareLevel` and `getByMedication` return lists
sorted by full name in ascending code-point order (the storage layer's
`orderBy('name')`); `searchByName` instead sorts with the host's locale-aware
`localeCompare` comparator, so its result is sorted with respect to that
comparator (and agrees with code-point order only when the comparator does). -/
theorem result_lists_sorted :
    (∀ s : ResStore, List.Sorted byName (getAll s)) ∧
    (∀ (s : ResStore) (lvl : Nat), List.Sorted byName (getByCareLevel s lvl)) ∧
    (∀ (s : ResStore) (fault : Bool) (med : String) (l : List ResDoc),
       getByMedication s fault med = .ok l → List.Sorted byName l) ∧
    (∀ lcmp : String → String → Int,
       (∀ a b, lcmp a b ≤ 0 ∨ lcmp b a ≤ 0) →
       (∀ a b c, lcmp a b ≤ 0 → lcmp b c ≤ 0 → lcmp a c ≤ 0) →
       ∀ (s : ResStore) (fault : Bool) (q : String) (l : List ResDoc),
         searchByName s lcmp fault q = .ok l → List.Sorted (lcLe lcmp) l) := by
  haveI : IsTotal ResDoc byName := ⟨fun a b => strLeb_total a.name b.name⟩
  haveI : IsTrans ResDoc byName := ⟨fun _ _ _ h1 h2 => strLeb_trans h1 h2⟩
  refine ⟨fun s => List.sorted_insertionSort byName s,
          fun s lvl => List.sorted_insertionSort byName _,
          fun s fault med l h => ?_, fun lcmp htot htrans s fault q l h => ?_⟩
  · dsimp only [getByMedication] at h
    split at h
    · simp only [Except.ok.injEq] at h
      rw [← h]
      exact List.sorted_nil
    · split at h
      · exact absurd h (by simp)
      · simp only [Except.ok.injEq] at h
        rw [← h]
        exact List.sorted_insertionSort byName _
  · haveI : IsTotal ResDoc (lcLe lcmp) := ⟨fun a b => htot a.name b.name⟩
    haveI : IsTrans ResDoc (lcLe lcmp) :=
      ⟨fun a b c h1 h2 => htrans a.name b.name c.name h1 h2⟩
    dsimp only [searchByName] at h
    split at h
    · simp only [Except.ok.injEq] at h
      rw [← h]
      exact List.sorted_nil
    · split at h
      · exact absurd h (by simp)
      · simp only [Except.ok.injEq] at h
        rw [← h]
        exact List.sorted_insertionSort (lcLe lcmp) _

theorem result_lists_sorted_witness :
    List.Sorted byName (getAll
      [⟨"x", "B", "", "", "ab", "", "", "男性", 0, "1", 0, none, "", [], 1, 0, 0⟩,
       ⟨"y", "a", "", "", "", "", "", "男性", 0, "2", 0, none, "", [], 1, 0, 0⟩]) ∧
    List.Sorted byName (getByCareLevel
      [⟨"y", "a", "", "", "", "", "", "男性", 0, "2", 0, none, "", [], 1, 0, 0⟩] 1) ∧
    List.Sorted byName
      [⟨"y", "a", "", "", "", "", "", "男性", 0, "2", 0, none, "", ["m"], 1, 0, 0⟩] ∧
    List.Sorted (lcLe cpCmpInt)
      [⟨"y", "a", "", "", "", "", "", "男性", 0, "2", 0, none, "", [], 1, 0, 0⟩,
       ⟨"x", "ab", "", "", "", "", "", "男性", 0, "1", 0, none, "", [], 1, 0, 0⟩] := by
  refine ⟨result_lists_sorted.1 _, result_lists_sorted.2.1 _ 1,
          result_lists_sorted.2.2.1
            [⟨"y", "a", "", "", "", "", "", "男性", 0, "2", 0, none, "", ["m"], 1, 0, 0⟩]
            false "m" _ rfl,
          result_lists_sorted.2.2.2 cpCmpInt
            (fun a b => ?_) (fun a b c h1 h2 => ?_)
            [⟨"x", "ab", "", "", "", "", "", "男性", 0, "1", 0, none, "", [], 1, 0, 0⟩,
             ⟨"y", "a", "", "", "", "", "", "男性", 0, "2", 0, none, "", [], 1, 0, 0⟩]
            false "a" _ rfl⟩
  · rcases strLeb_total a b with h | h
    · exact Or.inl (cpCmpInt_le_zero.2 h)
    · exact Or.inr (cpCmpInt_le_zero.2 h)
  · exact cpCmpInt_le_zero.2
      (strLeb_trans (cpCmpInt_le_zero.1 h1) (cpCmpInt_le_zero.1 h2))

/-! ## C2: the six-query union (corrected) -/

theorem mem_subQueryHits {s : ResStore} {t k : String} {d : ResDoc} :
    d ∈ subQueryHits s t k ↔
      d ∈ s ∧
        (matchesRange d.name t = true ∨ matchesRange d.lastName t = true ∨
         matchesRange d.firstName t = true ∨ matchesRange d.furigana k = true ∨
         matchesRange d.lastNameKana k = true ∨
         matchesRange d.firstNameKana k = true) := by
  simp only [subQueryHits, List.mem_append, List.mem_filter]
  tauto

/-- C2 counterexample: the code's range condition is the closed interval
`[query, query + U+F8FF]`, not the half-open one the claim states. On a store
holding one resident whose name is exactly `"a" ++ U+F8FF`, `searchByName "a"`
returns that resident although no field of it lies in the claimed half-open
range of any of the six sub-queries, and the half-open variant of the search
returns the empty list. -/
theorem searchByName_halfopen_cex :
    searchByName
        [⟨"x1", "a", "", "", "", "", "", "男性", 0, "101", 0, none, "", [], 3, 0, 0⟩]
        cpCmpInt false "a" =
      .ok [⟨"x1", "a", "", "", "", "", "", "男性", 0, "101", 0, none, "", [], 3, 0, 0⟩] ∧
    matchesRangeHalfOpen "a" "a" = false ∧
    matchesRangeHalfOpen "" "a" = false ∧
    searchByNameHalfOpen
        [⟨"x1", "a", "", "", "", "", "", "男性", 0, "101", 0, none, "", [], 3, 0, 0⟩]
        cpCmpInt false "a" = .ok [] :=
  ⟨rfl, rfl, rfl, rfl⟩

/-- C2 (amended): for every non-blank query and every store with unique
document ids, `searchByName` succeeds with a list whose members are exactly the
stored documents matched by at least one of the six range sub-queries — name,
lastName and firstName against the trimmed query, and furigana, lastNameKana
and firstNameKana against its katakana conversion, each over the closed
interval `[term, term + U+F8FF]` — and, the union being keyed by resident id, a
resident matched by several sub-queries appears exactly once. -/
theorem searchByName_six_query_union (s : ResStore)
    (lcmp : String → String → Int) (q : String) (hq : jsTrim q ≠ "")
    (hinj : ∀ d1 ∈ s, ∀ d2 ∈ s, d1.id = d2.id → d1 = d2) :
    ∃ l, searchByName s lcmp false q = .ok l ∧
      (∀ d, d ∈ l ↔ d ∈ s ∧
         (matchesRange d.name (jsTrim q) = true ∨
          matchesRange d.lastName (jsTrim q) = true ∨
          matchesRange d.firstName (jsTrim q) = true ∨
          matchesRange d.furigana (convertHiraganaToKatakana (jsTrim q)) = true ∨
          matchesRange d.lastNameKana (convertHiraganaToKatakana (jsTrim q)) = true ∨
          matchesRange d.firstNameKana (convertHiraganaToKatakana (jsTrim q)) = true)) ∧
      (l.map fun d => d.id).Nodup := by
  refine ⟨(dedupById (subQueryHits s (jsTrim q)
            (convertHiraganaToKatakana (jsTrim q)))).insertionSort (lcLe lcmp),
          ?_, fun d => ?_, ?_⟩
  · dsimp only [searchByName]
    rw [if_neg hq]
    rfl
  · rw [List.mem_insertionSort]
    constructor
    · intro hd
      exact mem_subQueryHits.1 (dedupById_sub hd)
    · intro hd
      refine dedupById_mem ?_ (mem_subQueryHits.2 hd)
      intro d1 h1 d2 h2 hid
      exact hinj d1 (mem_subQueryHits.1 h1).1 d2 (mem_subQueryHits.1 h2).1 hid
  · have hperm :=
      (List.perm_insertionSort (lcLe lcmp)
        (dedupById (subQueryHits s (jsTrim q)
          (convertHiraganaToKatakana (jsTrim q))))).map fun d => d.id
    exact hperm.nodup_iff.2 (dedupById_nodup _)

theorem searchByName_six_query_union_witness :
    ∃ l, searchByName
        [⟨"z1", "tanaka hanako", "", "tanaka", "hanako", "", "", "女性", 0,
          "101", 0, none, "", [], 3, 0, 0⟩]
        cpCmpInt false "tanaka" = .ok l ∧
      (∀ d, d ∈ l ↔
         d ∈ ([⟨"z1", "tanaka hanako", "", "tanaka", "hanako", "", "", "女性", 0,
               "101", 0, none, "", [], 3, 0, 0⟩] : ResStore) ∧
         (matchesRange d.name (jsTrim "tanaka") = true ∨
          matchesRange d.lastName (jsTrim "tanaka") = true ∨
          matchesRange d.firstName (jsTrim "tanaka") = true ∨
          matchesRange d.furigana (convertHiraganaToKatakana (jsTrim "tanaka")) = true ∨
          matchesRange d.lastNameKana (convertHiraganaToKatakana (jsTrim "tanaka")) = true ∨
          matchesRange d.firstNameKana (convertHiraganaToKatakana (jsTrim "tanaka")) = true)) ∧
      (l.map fun d => d.id).Nodup :=
  searchByName_six_query_union _ cpCmpInt "tanaka" (by decide) (by decide)

/-! ## C7 and C8: resident create and update -/

/-- C7: `update` targets the document with the given id, writes exactly the
present fields plus `updatedAt`, re-derives the four split name fields when
`name` or `furigana` is present, and leaves every absent field untouched; in
particular a roomNumber-only update changes exactly `roomNumber` and
`updatedAt`. -/
theorem resUpdate_partial_semantics :
    (∀ (s : ResStore) (id : String) (u : ResidentUpdate) (now : Nat),
       (∃ d ∈ s, d.id = id) →
       resUpdate s id u now =
         some (s.map fun d => if d.id == id then applyResUpdate d u now else d)) ∧
    (∀ (d : ResDoc) (u : ResidentUpdate) (now : Nat),
       (applyResUpdate d u now).updatedAt = now ∧
       (applyResUpdate d u now).id = d.id ∧
       (applyResUpdate d u now).createdAt = d.createdAt ∧
       (u.name = none →
          (applyResUpdate d u now).name = d.name ∧
          (applyResUpdate d u now).lastName = d.lastName ∧
          (applyResUpdate d u now).firstName = d.firstName) ∧
       (∀ n, u.name = some n →
          (applyResUpdate d u now).name = n ∧
          (applyResUpdate d u now).lastName = strPart0 n ∧
          (applyResUpdate d u now).firstName = strPart1 n) ∧
       (u.furigana = none →
          (applyResUpdate d u now).furigana = d.furigana ∧
          (applyResUpdate d u now).lastNameKana = d.lastNameKana ∧
          (applyResUpdate d u now).firstNameKana = d.firstNameKana) ∧
       (∀ f, u.furigana = some f →
          (applyResUpdate d u now).furigana = f ∧
          (applyResUpdate d u now).lastNameKana = strPart0 f ∧
          (applyResUpdate d u now).firstNameKana = strPart1 f) ∧
       (u.gender = none → (applyResUpdate d u now).gender = d.gender) ∧
       (u.birthDate = none → (applyResUpdate d u now).birthDate = d.birthDate) ∧
       (u.roomNumber = none → (applyResUpdate d u now).roomNumber = d.roomNumber) ∧
       (u.admissionDate = none →
          (applyResUpdate d u now).admissionDate = d.admissionDate) ∧
       (u.dischargeDate = none →
          (applyResUpdate d u now).dischargeDate = d.dischargeDate) ∧
       (u.medicalHistory = none →
          (applyResUpdate d u now).medicalHistory = d.medicalHistory) ∧
       (u.medications = none → (applyResUpdate d u now).medications = d.medications) ∧
       (u.careLevel = none → (applyResUpdate d u now).careLevel = d.careLevel)) ∧
    (∀ (d : ResDoc) (now : Nat) (room : String),
       applyResUpdate d { roomNumber := some room } now =
         { d with roomNumber := room, updatedAt := now }) := by
  refine ⟨fun s id u now h => ?_, fun d u now => ?_, fun d now room => rfl⟩
  · obtain ⟨d, hd, hid⟩ := h
    unfold resUpdate
    rw [if_pos (List.any_eq_true.2 ⟨d, hd, by simp [hid]⟩)]
  · refine ⟨rfl, rfl, rfl, fun h => ?_, fun n h => ?_, fun h => ?_, fun f h => ?_,
          fun h => ?_, fun h => ?_, fun h => ?_, fun h => ?_, fun h => ?_,
          fun h => ?_, fun h => ?_, fun h => ?_⟩ <;>
      simp [applyResUpdate, h]

theorem resUpdate_partial_semantics_witness :
    resUpdate
        [⟨"s1", "田中 花子", "タナカ ハナコ", "田中", "花子", "タナカ", "ハナコ",
          "女性", 0, "101", 0, none, "", [], 3, 0, 0⟩]
        "s1" { roomNumber := some "305" } 9 =
      some [⟨"s1", "田中 花子", "タナカ ハナコ", "田中", "花子", "タナカ", "ハナコ",
            "女性", 0, "305", 0, none, "", [], 3, 0, 9⟩] :=
  (resUpdate_partial_semantics.1 _ "s1" { roomNumber := some "305" } 9
    ⟨⟨"s1", "田中 花子", "タナカ ハナコ", "田中", "花子", "タナカ", "ハナコ",
      "女性", 0, "101", 0, none, "", [], 3, 0, 0⟩,
     List.mem_singleton.2 rfl, rfl⟩).trans (by rfl)

/-! ## C8: name splitting on create (corrected) -/

/-- C8 counterexample: the code splits with `split(' ')` and keeps the first
two segments, it does not split on the first whitespace run. For the name
"a b c" it stores `lastName = "a"` and `firstName = "b"`, while splitting on
the first whitespace run would give a first component of "b c". -/
theorem resCreate_whitespace_run_cex :
    ((resCreate [] ⟨"a b c", "d e", "男性", 0, "1", 0, none, "", [], 1⟩ 0 "x").2.map
        fun d => (d.lastName, d.firstName)) = [("a", "b")] ∧
    specSplitOnFirstWhitespaceRun "a b c" = ("a", "b c") ∧
    ("b" : String) ≠ "b c" :=
  ⟨rfl, rfl, by decide⟩

/-- C8 (amended): `create` splits the full name and the full reading on the
single-space character, storing the first two segments as last/first
components: when the name is `a ++ " " ++ b` with `a` and `b` free of spaces it
stores `lastName = a` and `firstName = b` (so the claim's concrete example
holds), and a name containing no space character at all yields
`lastName = name` and an empty `firstName`. -/
theorem resCreate_space_split :
    (∀ (s : ResStore) (form : ResidentForm) (now : Nat) (newId : String)
       (a b c e : String),
       form.name = a ++ " " ++ b → ' ' ∉ a.data → ' ' ∉ b.data →
       form.furigana = c ++ " " ++ e → ' ' ∉ c.data → ' ' ∉ e.data →
       (resCreate s form now newId).2 =
         s ++ [{ id := newId, name := form.name, furigana := form.furigana,
                 lastName := a, firstName := b, lastNameKana := c,
                 firstNameKana := e, gender := form.gender,
                 birthDate := form.birthDate, roomNumber := form.roomNumber,
                 admissionDate := form.admissionDate,
                 dischargeDate := form.dischargeDate,
                 medicalHistory := form.medicalHistory,
                 medications := form.medications, careLevel := form.careLevel,
                 createdAt := now, updatedAt := now }]) ∧
    (∀ (s : ResStore) (form : ResidentForm) (now : Nat) (newId : String),
       ' ' ∉ form.name.data →
       (resCreate s form now newId).2 =
         s ++ [{ id := newId, name := form.name, furigana := form.furigana,
                 lastName := form.name, firstName := "",
                 lastNameKana := strPart0 form.furigana,
                 firstNameKana := strPart1 form.furigana,
                 gender := form.gender, birthDate := form.birthDate,
                 roomNumber := form.roomNumber,
                 admissionDate := form.admissionDate,
                 dischargeDate := form.dischargeDate,
                 medicalHistory := form.medicalHistory,
                 medications := form.medications, careLevel := form.careLevel,
                 createdAt := now, updatedAt := now }]) := by
  constructor
  · intro s form now newId a b c e hn ha hb hf hc he
    unfold resCreate
    rw [hn, hf, strPart0_of_split ha, strPart1_of_split ha hb,
      strPart0_of_split hc, strPart1_of_split hc he]
  · intro s form now newId hn
    unfold resCreate
    rw [strPart0_no_space hn, strPart1_no_space hn]

theorem resCreate_space_split_witness :
    (resCreate [] ⟨"山田 太郎", "ヤマダ タロウ", "男性", 0, "101", 0, none, "", [], 3⟩
        7 "r9").2 =
      [{ id := "r9", name := "山田 太郎", furigana := "ヤマダ タロウ",
         lastName := "山田", firstName := "太郎", lastNameKana := "ヤマダ",
         firstNameKana := "タロウ", gender := "男性", birthDate := 0,
         roomNumber := "101", admissionDate := 0, dischargeDate := none,
         medicalHistory := "", medications := [], careLevel := 3,
         createdAt := 7, updatedAt := 7 }] :=
  (resCreate_space_split.1 []
    ⟨"山田 太郎", "ヤマダ タロウ", "男性", 0, "101", 0, none, "", [], 3⟩
    7 "r9" "山田" "太郎" "ヤマダ" "タロウ"
    (by decide) (by decide) (by decide) (by decide) (by decide) (by decide)).trans
    (by rfl)

/-! ## C1, C5, C6: medical record claims -/

/-- C1: `create` first consults the same-day check — when some stored record of
the resident shares the calendar day of the requested date, it fails with the
conflict message naming that date and the store is unchanged; otherwise it
appends a fresh document with `createdAt = updatedAt = now` and returns its id. -/
theorem medCreate_date_uniqueness (s : MedStore) (rid : String) (form : MedForm)
    (now : Nat) (newId : String) :
    ((∃ d ∈ s, d.residentId = rid ∧ dayOf d.date = dayOf form.date) →
       medCreate s false rid form now newId = (.error (conflictMessage form.date), s)) ∧
    ((∀ d ∈ s, d.residentId = rid → dayOf d.date ≠ dayOf form.date) →
       medCreate s false rid form now newId =
         (.ok newId,
          s ++ [{ id := newId, residentId := rid, date := form.date,
                  record := form.record, createdAt := now, updatedAt := now }])) := by
  constructor
  · rintro ⟨d, hd, hrid, hday⟩
    have hfind : (checkExistingRecord s false rid form.date).isSome := by
      unfold checkExistingRecord queryByResident
      simp only [if_neg (Bool.false_ne_true)]
      rw [List.find?_isSome]
      exact ⟨d, List.mem_filter.2 ⟨hd, by simp [hrid]⟩, by simp [hday]⟩
    unfold medCreate
    obtain ⟨r, hr⟩ := Option.isSome_iff_exists.1 hfind
    rw [hr]
  · intro h
    have hfind : checkExistingRecord s false rid form.date = none := by
      unfold checkExistingRecord queryByResident
      simp only [if_neg (Bool.false_ne_true)]
      rw [List.find?_eq_none]
      intro d hd
      have hmem := List.mem_filter.1 hd
      have : d.residentId = rid := by simpa using hmem.2
      simp [h d hmem.1 this]
    unfold medCreate
    rw [hfind]

theorem medCreate_date_uniqueness_witness :
    (∃ d ∈ ([⟨"m1", "r1", 86400000 * 19792, "note", 5, 5⟩] : MedStore),
       d.residentId = "r1" ∧ dayOf d.date = dayOf (86400000 * 19792 + 3600000)) ∧
    medCreate [⟨"m1", "r1", 86400000 * 19792, "note", 5, 5⟩] false "r1"
        ⟨86400000 * 19792 + 3600000, "x"⟩ 9 "m2" =
      (.error (conflictMessage (86400000 * 19792 + 3600000)),
       [⟨"m1", "r1", 86400000 * 19792, "note", 5, 5⟩]) ∧
    medCreate [⟨"m1", "r1", 86400000 * 19792, "note", 5, 5⟩] false "r1"
        ⟨86400000 * 19793, "x"⟩ 9 "m2" =
      (.ok "m2",
       [⟨"m1", "r1", 86400000 * 19792, "note", 5, 5⟩,
        ⟨"m2", "r1", 86400000 * 19793, "x", 9, 9⟩]) := by
  refine ⟨⟨⟨"m1", "r1", 86400000 * 19792, "note", 5, 5⟩, by decide⟩, ?_, ?_⟩
  · exact (medCreate_date_uniqueness _ "r1" ⟨86400000 * 19792 + 3600000, "x"⟩ 9 "m2").1
      ⟨⟨"m1", "r1", 86400000 * 19792, "note", 5, 5⟩, by decide⟩
  · exact (medCreate_date_uniqueness _ "r1" ⟨86400000 * 19793, "x"⟩ 9 "m2").2
      (by decide)

/-- C6: with a faulting store, `getByResidentId` returns `[]` and
`checkExistingRecord` returns `none` instead of propagating the error, and
`create` therefore proceeds to insert even when a same-day record exists. -/
theorem med_read_ops_swallow_errors (s : MedStore) (rid : String) (t : Nat)
    (form : MedForm) (now : Nat) (newId : String) :
    getByResidentId s true rid = [] ∧
    checkExistingRecord s true rid t = none ∧
    medCreate s true rid form now newId =
      (.ok newId,
       s ++ [{ id := newId, residentId := rid, date := form.date,
               record := form.record, createdAt := now, updatedAt := now }]) := by
  refine ⟨rfl, rfl, ?_⟩
  unfold medCreate checkExistingRecord queryByResident
  rfl

/-- C5: `update` writes exactly the present fields plus `updatedAt` and runs no
date-uniqueness check, so updating one record's date onto another record's day
succeeds and leaves the store with a same-day duplicate that `create` refuses. -/
theorem medUpdate_no_uniqueness_check :
    (∀ (s : MedStore) (id : String) (u : MedUpdate) (now : Nat),
       (∃ d ∈ s, d.id = id) →
       medUpdate s id u now =
         some (s.map fun d => if d.id == id then applyMedUpdate d u now else d)) ∧
    (∀ (d : MedDoc) (u : MedUpdate) (now : Nat),
       (applyMedUpdate d u now).date = u.date.getD d.date ∧
       (applyMedUpdate d u now).record = u.record.getD d.record ∧
       (applyMedUpdate d u now).updatedAt = now ∧
       (applyMedUpdate d u now).id = d.id ∧
       (applyMedUpdate d u now).residentId = d.residentId ∧
       (applyMedUpdate d u now).createdAt = d.createdAt) ∧
    (medUpdate [⟨"a", "r", 0, "n1", 0, 0⟩, ⟨"b", "r", 86400000, "n2", 0, 0⟩]
        "b" ⟨some 0, none⟩ 5 =
       some [⟨"a", "r", 0, "n1", 0, 0⟩, ⟨"b", "r", 0, "n2", 0, 5⟩] ∧
     (medCreate [⟨"a", "r", 0, "n1", 0, 0⟩, ⟨"b", "r", 0, "n2", 0, 5⟩]
         false "r" ⟨0, "n3"⟩ 7 "c").1 = .error (conflictMessage 0)) := by
  refine ⟨fun s id u now h => ?_,
          fun d u now => ⟨rfl, rfl, rfl, rfl, rfl, rfl⟩, by rfl, by rfl⟩
  obtain ⟨d, hd, hid⟩ := h
  unfold medUpdate
  rw [if_pos (List.any_eq_true.2 ⟨d, hd, by simp [hid]⟩)]

theorem medUpdate_no_uniqueness_check_witness :
    medUpdate [⟨"a", "r", 0, "n1", 0, 0⟩] "a" ⟨none, some "n9"⟩ 3 =
      some [⟨"a", "r", 0, "n9", 0, 3⟩] := by
  have h := medUpdate_no_uniqueness_check.1 [⟨"a", "r", 0, "n1", 0, 0⟩] "a"
    ⟨none, some "n9"⟩ 3 ⟨⟨"a", "r", 0, "n1", 0, 0⟩, by decide⟩
  simpa using h

end CareEmr
